import Mathlib

/-!
Verification of the reload-coordination and shader-assembly subsystem of the
`rust_wgpu_hot_reload` repository.

The development embeds two parts of the code:

* the shader include resolver `ShaderBuilder::load` / `ShaderBuilder::build` /
  `ShaderBuilder::build_with_seen` from `lib/src/shader_builder.rs`, and
* the reload state machine: the `ReloadFlags` record from `lib/src/helpers.rs`,
  the two producer threads from `src/main.rs` (filesystem watcher and
  dll-reload monitor) and the per-frame drain in `src/runner.rs`.

Rust strings are embedded as Lean `String`; the two string primitives the
resolver uses (`str::starts_with` and `str::split('"')`) are implemented over
the character list of the string so that concrete inputs evaluate by kernel
reduction.
-/

/-- Rust `str::starts_with(pat)`: `charsPre pat s` is true iff the char list
`pat` is an initial segment of the char list `s`. -/
def charsPre : List Char → List Char → Bool
  | [], _ => true
  | _ :: _, [] => false
  | a :: as, b :: bs => a == b && charsPre as bs

/-- Rust `str::split(c)`: split a char list at every occurrence of `c`.
Yields one (possibly empty) group more than the number of separators,
exactly like Rust's `split` iterator collected to a vector. -/
def splitOnChar (c : Char) : List Char → List (List Char)
  | [] => [[]]
  | a :: as =>
    match splitOnChar c as with
    | [] => [[]]
    | grp :: rest => if a == c then [] :: grp :: rest else (a :: grp) :: rest

/-- `line.starts_with("#import")` from `build_with_seen`. -/
def strStarts (s pat : String) : Bool := charsPre pat.data s.data

/-- `line.split('"')` from `build_with_seen`, collected to a list;
`(splitQuote line)[1]?` is Rust's `line.split('"').nth(1)`. -/
def splitQuote (s : String) : List String := (splitOnChar '\"' s.data).map String.mk

/-- Number of (possibly overlapping) occurrences of the pattern `pat` in the
char list; used only to state the body-uniqueness properties. -/
def countOcc (pat : List Char) : List Char → Nat
  | [] => 0
  | a :: rest =>
    (if charsPre pat (a :: rest) then 1 else 0) + countOcc pat rest

/-- Occurrences of the non-empty pattern `pat` in the string `s`. -/
def occurrences (s pat : String) : Nat := countOcc pat.data s.data

/-- `ProgramError` from `lib/src/program.rs`. -/
inductive ProgramError where
  | ShaderParseError (message : String)
  | ShaderNotFound (message : String)
deriving DecidableEq

/-- Contents of one embedded shader file, as seen by `ShaderBuilder::load`:
either bytes that are not valid UTF-8, or text represented by its list of
lines (Rust immediately splits the loaded content with `.lines()`). -/
inductive FileData where
  | invalidUtf8
  | text (lines : List String)
deriving DecidableEq

/-- The embedded shader folder (`#[folder = "../shaders/"]`): a finite
association list from file name to file data. -/
abbrev ShaderFolder : Type := List (String × FileData)

/-- `RustEmbed::get(name)`: first entry whose key equals `name`. -/
def getFile (g : ShaderFolder) (name : String) : Option FileData :=
  (List.find? (fun p => p.1 == name) g).map Prod.snd

namespace ShaderBuilder

/-- `ShaderBuilder::load`: return the raw file content (as its lines), or a
`ShaderNotFound` error when the file is missing or not valid UTF-8. -/
def load (g : ShaderFolder) (name : String) : Except ProgramError (List String) :=
  match getFile g name with
  | none => .error (.ShaderNotFound ("Could not load shader file: " ++ name))
  | some .invalidUtf8 =>
      .error (.ShaderNotFound ("Shader file " ++ name ++ " is not a valid utf8."))
  | some (.text lines) => .ok lines

/-- Outcome of one resolver call: a successful string, a returned
`ProgramError`, a Rust `panic` (the `expect` on a malformed import line), or
exhaustion of the fuel that makes the embedded recursion structural.
`fuelOut` never occurs for the fuel used by `build`. -/
inductive BuildResult where
  | ok (s : String)
  | error (e : ProgramError)
  | panicked (msg : String)
  | fuelOut
deriving DecidableEq

/-- The two mutually recursive tasks of `build_with_seen`, fused so that the
recursion is structural on fuel: `buildName` is the body of
`ShaderBuilder::build_with_seen` itself, and `moduleLines` is the
`lines().map(..).collect::<Result<String,_>>()` loop over the remaining lines
(collect stops at the first `Err`). -/
inductive BuildJob where
  | buildName (name : String)
  | moduleLines (lines : List String)

/-- Fused embedding of `ShaderBuilder::build_with_seen` and its line loop.
The `seen` vector is threaded exactly as the Rust `&mut Vec<String>`:
the resolved name is pushed before `load` is attempted, every recursive call
receives the current vector, and the final vector is returned alongside the
result. -/
def run (g : ShaderFolder) : Nat → BuildJob → List String → BuildResult × List String
  | 0, _, seen => (.fuelOut, seen)
  | fuel + 1, .buildName name, seen =>
    if name ∈ seen then (.ok "", seen)
    else
      match load g name with
      | .error e => (.error e, seen ++ [name])
      | .ok lines => run g fuel (.moduleLines lines) (seen ++ [name])
  | _fuel + 1, .moduleLines [], seen => (.ok "", seen)
  | fuel + 1, .moduleLines (line :: rest), seen =>
    if strStarts line "#import" then
      match (splitQuote line)[1]? with
      | none => (.panicked "Invalid import syntax: expected #import \"file\"", seen)
      | some inc =>
        match run g fuel (.buildName inc) seen with
        | (.ok content, seen1) =>
          match run g fuel (.moduleLines rest) seen1 with
          | (.ok restOut, seen2) =>
              (.ok ("//" ++ line ++ "\n " ++ content ++ restOut), seen2)
          | other => other
        | other => other
    else
      match run g fuel (.moduleLines rest) seen with
      | (.ok restOut, seen1) => (.ok (line ++ "\n" ++ restOut), seen1)
      | other => other

/-- `ShaderBuilder::build_with_seen(name, seen)`. -/
def build_with_seen (g : ShaderFolder) (fuel : Nat) (name : String)
    (seen : List String) : BuildResult × List String :=
  run g fuel (.buildName name) seen

/-- The line loop of `build_with_seen` over a list of remaining lines. -/
def buildLines (g : ShaderFolder) (fuel : Nat) (lines : List String)
    (seen : List String) : BuildResult × List String :=
  run g fuel (.moduleLines lines) seen

/-- Size of one file: number of lines of its text. -/
def dataSize : FileData → Nat
  | .invalidUtf8 => 0
  | .text lines => lines.length

/-- Total size of the folder entries whose key is not yet in `seen`; the
fuel actually needed by the recursion of `build_with_seen`. -/
def pendingSize (g : ShaderFolder) (seen : List String) : Nat :=
  (g.map (fun p => if p.1 ∈ seen then 0 else 1 + dataSize p.2)).sum

/-- Total size of the embedded folder. -/
def folderSize (g : ShaderFolder) : Nat := pendingSize g []

/-- `ShaderBuilder::build(name)`: resolve with a fresh empty `seen` vector.
The fuel `folderSize g + 1` is an upper bound on the recursion depth of the
Rust function, which is what makes its recursion well-founded. -/
def build (g : ShaderFolder) (name : String) : BuildResult :=
  (build_with_seen g (folderSize g + 1) name []).1

/-- Fuel needed by `run` on a given job: the pending folder size, plus the
number of remaining lines for a line job, plus one. -/
def jobCost (g : ShaderFolder) (job : BuildJob) (seen : List String) : Nat :=
  match job with
  | .buildName _ => pendingSize g seen + 1
  | .moduleLines lines => pendingSize g seen + lines.length + 1

end ShaderBuilder

/-! Concrete shader folders used by the claims' concrete test cases. -/

/-- 2-cycle: `A` imports `B` and `B` imports `A` (§8 of the spec). -/
def twoCycleFolder : ShaderFolder :=
  [("A", .text ["#import \"B\"", "code_A"]),
   ("B", .text ["#import \"A\"", "code_B"])]

/-- `A` imports `B` twice (§8 of the spec). -/
def twiceFolder : ShaderFolder :=
  [("A", .text ["#import \"B\"", "#import \"B\"", "code_A"]),
   ("B", .text ["code_B"])]

/-- Acyclic diamond: `A` imports `B` then `C`; both import `D`. -/
def diamondFolder : ShaderFolder :=
  [("A", .text ["#import \"B\"", "#import \"C\"", "code_A"]),
   ("B", .text ["#import \"D\"", "code_B"]),
   ("C", .text ["#import \"D\"", "code_C"]),
   ("D", .text ["code_D"])]

/-- Module that imports itself. -/
def selfImportFolder : ShaderFolder := [("A", .text ["#import \"A\""])]

/-- Folder whose only file contains a missing import followed by an
unquoted import line. -/
def badSyntaxFolder : ShaderFolder :=
  [("A", .text ["#import \"missing\"", "#import noquote"])]

/-- Folder with a file whose bytes are not valid UTF-8. -/
def badUtf8Folder : ShaderFolder := [("bad", .invalidUtf8)]

/-- Folder whose only file starts with an unquoted import line. -/
def unquotedFirstFolder : ShaderFolder := [("A", .text ["#import noquote"])]

/-! The reload state machine: `ReloadFlags` (`lib/src/helpers.rs`), the two
producer threads of `src/main.rs`, and the per-frame drain of the render
callback in `src/runner.rs`. -/

/-- `LibState` from `lib/src/helpers.rs`. -/
inductive LibState where
  | Stable
  | Reloading
  | Reloaded
deriving DecidableEq

/-- `ReloadFlags` from `lib/src/helpers.rs`: the pending changed shader
paths and the library phase, the record shared by all threads behind the
`Arc<Mutex<_>>` built in `main`. -/
structure ReloadFlags where
  shaders : List String
  lib : LibState
deriving DecidableEq

/-- First half of the dll-watcher loop body in `main.rs`: after
`wait_for_about_to_reload()` returns, set `data.lib = LibState::Reloading`
under the lock. -/
def monitorAboutToReload (f : ReloadFlags) : ReloadFlags :=
  { f with lib := .Reloading }

/-- Second half of the dll-watcher loop body in `main.rs`: after
`wait_for_reload()` returns, set `data.lib = LibState::Reloaded` under the
lock. -/
def monitorReloadComplete (f : ReloadFlags) : ReloadFlags :=
  { f with lib := .Reloaded }

/-- Body of the filesystem-watcher event handler in `main.rs`: push every
changed path onto `data.shaders` under the lock. -/
def watcherAppend (f : ReloadFlags) (paths : List String) : ReloadFlags :=
  { f with shaders := f.shaders ++ paths }

/-- Observable events of one orchestrator tick, in program order: the lock
acquisition `data.lock()`, the two `update_program_passes` call sites
(shader drain and library-reload drain), the `update_program` and
`render_frame` calls of the stable branch, and the release of the lock when
the `MutexGuard` is dropped at the end of the redraw scope. -/
inductive Ev where
  | lockAcquire
  | rebuildPassesShaders
  | rebuildPassesLib
  | updateProgram
  | renderFrame
  | lockRelease
deriving DecidableEq, BEq

instance : LawfulBEq Ev where
  eq_of_beq := by intro a b h; cases a <;> cases b <;> revert h <;> decide
  rfl := by intro a; cases a <;> decide

/-- One tick of the Rebuild Orchestrator: the body of the
`redraw_requested` branch of `run` in `src/runner.rs`, from `data.lock()`
to the end of the scope.  `o1` and `o2` are the results returned by the two
potential `update_program_passes` calls; the code only logs an `Err`, so
neither the resulting flags nor the control flow depend on them.  Returns
the new flags and the trace of events in program order. -/
def orchestratorTick (o1 o2 : Except ProgramError Unit) (f : ReloadFlags) :
    ReloadFlags × List Ev :=
  let ev0 := [Ev.lockAcquire]
  -- if !data.shaders.is_empty() { update_program_passes(..); data.shaders.clear(); }
  let s1 := if f.shaders ≠ [] then
      ({ f with shaders := [] }, ev0 ++ [Ev.rebuildPassesShaders])
    else (f, ev0)
  -- if data.lib == LibState::Reloaded { update_program_passes(..); data.lib = Stable; }
  let s2 := if s1.1.lib = .Reloaded then
      ({ s1.1 with lib := .Stable }, s1.2 ++ [Ev.rebuildPassesLib])
    else s1
  -- if data.lib == LibState::Stable { update_program(..); render_frame(..); .. }
  let ev3 := if s2.1.lib = .Stable then s2.2 ++ [Ev.updateProgram, Ev.renderFrame]
    else s2.2
  (s2.1, ev3 ++ [Ev.lockRelease])

/-- Program counter of the dll-watcher thread of `main.rs`: blocked in
`wait_for_about_to_reload()` or in `wait_for_reload()`. -/
inductive MonitorPc where
  | waitAbout
  | waitReload
deriving DecidableEq

/-- Global state of the reload system: the shared flags plus the monitor
thread's position. -/
structure SysState where
  flags : ReloadFlags
  pc : MonitorPc
deriving DecidableEq

/-- Interleaving semantics of the system: at any moment the monitor thread
may pass its current wait point, a watcher callback may append paths, or
the render thread may run one orchestrator tick. -/
inductive SysStep : SysState → SysState → Prop where
  | monitorAbout (s : SysState) (h : s.pc = .waitAbout) :
      SysStep s ⟨monitorAboutToReload s.flags, .waitReload⟩
  | monitorComplete (s : SysState) (h : s.pc = .waitReload) :
      SysStep s ⟨monitorReloadComplete s.flags, .waitAbout⟩
  | watcher (s : SysState) (paths : List String) :
      SysStep s ⟨watcherAppend s.flags paths, s.pc⟩
  | tick (s : SysState) (o1 o2 : Except ProgramError Unit) :
      SysStep s ⟨(orchestratorTick o1 o2 s.flags).1, s.pc⟩

/-- Initial state built in `main`: no pending shaders, `LibState::Stable`,
monitor blocked on `wait_for_about_to_reload()`. -/
def initState : SysState := ⟨⟨[], .Stable⟩, .waitAbout⟩

/-- Reachability from the initial state. -/
def Reachable (s : SysState) : Prop := Relation.ReflTransGen SysStep initState s

/-- The modules named by the `#import` directives of a module's lines, in
source order: exactly the lines the resolver treats as imports, with the
name the resolver extracts (`split('"').nth(1)`). -/
def moduleImports (lines : List String) : List String :=
  lines.filterMap
    (fun line => if strStarts line "#import" then (splitQuote line)[1]? else none)

/-- Module `m` of the folder has an import directive naming `inc`: one edge
of the shader import graph. -/
def Imports (g : ShaderFolder) (m inc : String) : Prop :=
  ∃ lines, getFile g m = some (.text lines) ∧ inc ∈ moduleImports lines

/-- The modules reachable from `root` along import edges: `root` itself,
and every module named by an import directive of a reachable module. -/
inductive ReachableMod (g : ShaderFolder) (root : String) : String → Prop where
  | root : ReachableMod g root root
  | step {m inc : String} :
      ReachableMod g root m → Imports g m inc → ReachableMod g root inc

/-- The visited trace of `ShaderBuilder::build(name)`: the final `seen`
vector, listing the visited modules in the order of their first encounter
(a module's body is expanded exactly when its name is pushed). -/
def buildVisited (g : ShaderFolder) (name : String) : List String :=
  (ShaderBuilder.build_with_seen g (ShaderBuilder.folderSize g + 1) name []).2

open ShaderBuilder

/-! General lemmas about the resolver. -/

/-- `load` succeeds exactly on files present with valid text. -/
theorem load_ok_iff {g : ShaderFolder} {name : String} {ls : List String} :
    load g name = .ok ls ↔ getFile g name = some (.text ls) := by
  unfold load
  cases h : getFile g name with
  | none => simp
  | some d => cases d <;> simp

/-- The `seen` vector only grows: the input vector is contained in the
returned one. -/
theorem run_seen_sub (g : ShaderFolder) :
    ∀ (fuel : Nat) (job : BuildJob) (seen : List String),
      seen ⊆ (run g fuel job seen).2 := by
  intro fuel
  induction fuel with
  | zero => intro job seen; simp [run]
  | succ fuel ih =>
    intro job seen
    cases job with
    | buildName name =>
      by_cases h : name ∈ seen
      · simp [run, h]
      · cases hl : load g name with
        | error e =>
          simp only [run, if_neg h, hl]
          exact List.subset_append_left _ _
        | ok ls =>
          simp only [run, if_neg h, hl]
          exact (List.subset_append_left _ _).trans (ih _ _)
    | moduleLines ls =>
      cases ls with
      | nil => simp [run]
      | cons line rest =>
        by_cases hs : strStarts line "#import"
        · cases hq : (splitQuote line)[1]? with
          | none => simp [run, hs, hq]
          | some inc =>
            have h1 := ih (.buildName inc) seen
            rcases hr : run g fuel (.buildName inc) seen with ⟨r1, seen1⟩
            rw [hr] at h1
            cases r1 with
            | ok content =>
              have h2 := ih (.moduleLines rest) seen1
              rcases hr2 : run g fuel (.moduleLines rest) seen1 with ⟨r2, seen2⟩
              rw [hr2] at h2
              cases r2 <;> simp [run, hs, hq, hr, hr2] <;> exact h1.trans h2
            | error e => simpa [run, hs, hq, hr] using h1
            | panicked m => simpa [run, hs, hq, hr] using h1
            | fuelOut => simpa [run, hs, hq, hr] using h1
        · have h2 := ih (.moduleLines rest) seen
          rcases hr2 : run g fuel (.moduleLines rest) seen with ⟨r2, seen1⟩
          rw [hr2] at h2
          cases r2 <;> simpa [run, hs, hr2] using h2

/-- Pushing an element not yet present preserves `Nodup`. -/
theorem nodup_push {l : List String} {a : String} (h : l.Nodup) (ha : a ∉ l) :
    (l ++ [a]).Nodup := by
  simp [List.nodup_append, h, ha]

/-- The returned `seen` vector never contains a repeated module name: a
name is pushed only when `seen.contains` is false, so each module can be
entered (and its body emitted) at most once per top-level resolve call. -/
theorem run_nodup (g : ShaderFolder) :
    ∀ (fuel : Nat) (job : BuildJob) (seen : List String),
      seen.Nodup → (run g fuel job seen).2.Nodup := by
  intro fuel
  induction fuel with
  | zero => intro job seen hn; simpa [run] using hn
  | succ fuel ih =>
    intro job seen hn
    cases job with
    | buildName name =>
      by_cases h : name ∈ seen
      · simpa [run, h] using hn
      · cases hl : load g name with
        | error e =>
          simp only [run, if_neg h, hl]
          exact nodup_push hn h
        | ok ls =>
          simp only [run, if_neg h, hl]
          exact ih _ _ (nodup_push hn h)
    | moduleLines ls =>
      cases ls with
      | nil => simpa [run] using hn
      | cons line rest =>
        by_cases hs : strStarts line "#import"
        · cases hq : (splitQuote line)[1]? with
          | none => simpa [run, hs, hq] using hn
          | some inc =>
            have h1 := ih (.buildName inc) seen hn
            rcases hr : run g fuel (.buildName inc) seen with ⟨r1, seen1⟩
            rw [hr] at h1
            cases r1 with
            | ok content =>
              have h2 := ih (.moduleLines rest) seen1 h1
              rcases hr2 : run g fuel (.moduleLines rest) seen1 with ⟨r2, seen2⟩
              rw [hr2] at h2
              cases r2 <;> simpa [run, hs, hq, hr, hr2] using h2
            | error e => simpa [run, hs, hq, hr] using h1
            | panicked m => simpa [run, hs, hq, hr] using h1
            | fuelOut => simpa [run, hs, hq, hr] using h1
        · have h2 := ih (.moduleLines rest) seen hn
          rcases hr2 : run g fuel (.moduleLines rest) seen with ⟨r2, seen1⟩
          rw [hr2] at h2
          cases r2 <;> simpa [run, hs, hr2] using h2

/-- Growing `seen` can only shrink the pending size. -/
theorem pendingSize_mono (g : ShaderFolder) {seen seen' : List String}
    (h : seen ⊆ seen') : pendingSize g seen' ≤ pendingSize g seen := by
  induction g with
  | nil => exact le_refl _
  | cons p tl ih =>
    simp only [pendingSize, List.map_cons, List.sum_cons] at *
    have hhead : (if p.1 ∈ seen' then 0 else 1 + dataSize p.2) ≤
        (if p.1 ∈ seen then 0 else 1 + dataSize p.2) := by
      by_cases hp : p.1 ∈ seen
      · simp [hp, h hp]
      · by_cases hp' : p.1 ∈ seen' <;> simp [hp, hp']
    exact Nat.add_le_add hhead ih

/-- Entering a loadable module strictly pays for its lines plus itself. -/
theorem pendingSize_getFile (g : ShaderFolder) {name : String}
    {seen : List String} {ls : List String} (hn : name ∉ seen)
    (hf : getFile g name = some (.text ls)) :
    ls.length + 1 + pendingSize g (seen ++ [name]) ≤ pendingSize g seen := by
  induction g with
  | nil => simp [getFile] at hf
  | cons p tl ih =>
    by_cases hp : p.1 = name
    · have hf' : p.2 = FileData.text ls := by
        simp [getFile, List.find?_cons, hp] at hf
        exact hf
      have hmem : p.1 ∈ seen ++ [name] := by simp [hp]
      have hnmem : p.1 ∉ seen := by rw [hp]; exact hn
      have htl : pendingSize tl (seen ++ [name]) ≤ pendingSize tl seen :=
        pendingSize_mono tl (List.subset_append_left _ _)
      simp only [pendingSize, List.map_cons, List.sum_cons, if_pos hmem,
        if_neg hnmem, hf', dataSize] at *
      omega
    · have hf' : getFile tl name = some (FileData.text ls) := by
        simp [getFile, List.find?_cons, hp] at hf ⊢
        exact hf
      have hih := ih hf'
      have hhead : (if p.1 ∈ seen ++ [name] then 0 else 1 + dataSize p.2) =
          (if p.1 ∈ seen then 0 else 1 + dataSize p.2) := by
        by_cases hmem : p.1 ∈ seen
        · simp [hmem]
        · have hno : p.1 ∉ seen ++ [name] := by simp [hmem, hp]
          simp [hmem, hno]
      simp only [pendingSize, List.map_cons, List.sum_cons, hhead] at *
      omega

/-- With fuel at least the job cost, `run` never runs out of fuel: the
embedded `build_with_seen` terminates on every import graph. -/
theorem run_no_fuelOut (g : ShaderFolder) :
    ∀ (fuel : Nat) (job : BuildJob) (seen : List String),
      jobCost g job seen ≤ fuel → (run g fuel job seen).1 ≠ .fuelOut := by
  intro fuel
  induction fuel with
  | zero =>
    intro job seen hc
    cases job <;> simp [jobCost] at hc
  | succ fuel ih =>
    intro job seen hc
    cases job with
    | buildName name =>
      by_cases h : name ∈ seen
      · simp [run, h]
      · cases hl : load g name with
        | error e => simp [run, h, hl]
        | ok ls =>
          simp only [run, if_neg h, hl]
          apply ih
          have hgf := load_ok_iff.mp hl
          have := pendingSize_getFile g h hgf
          simp only [jobCost] at hc ⊢
          omega
    | moduleLines lsj =>
      cases lsj with
      | nil => simp [run]
      | cons line rest =>
        simp only [jobCost, List.length_cons] at hc
        by_cases hs : strStarts line "#import"
        · cases hq : (splitQuote line)[1]? with
          | none => simp [run, hs, hq]
          | some inc =>
            have h1 := ih (.buildName inc) seen (by simp [jobCost]; omega)
            have hsub := run_seen_sub g fuel (.buildName inc) seen
            rcases hr : run g fuel (.buildName inc) seen with ⟨r1, seen1⟩
            rw [hr] at h1 hsub
            cases r1 with
            | ok content =>
              have hps : pendingSize g seen1 ≤ pendingSize g seen :=
                pendingSize_mono g hsub
              have h2 := ih (.moduleLines rest) seen1 (by simp [jobCost]; omega)
              rcases hr2 : run g fuel (.moduleLines rest) seen1 with ⟨r2, seen2⟩
              rw [hr2] at h2
              cases r2 <;> simp_all [run, hs, hq, hr, hr2]
            | error e => simp [run, hs, hq, hr]
            | panicked m => simp [run, hs, hq, hr]
            | fuelOut => exact absurd rfl h1
        · have h2 := ih (.moduleLines rest) seen (by simp [jobCost]; omega)
          rcases hr2 : run g fuel (.moduleLines rest) seen with ⟨r2, seen1⟩
          rw [hr2] at h2
          cases r2 <;> simp_all [run, hs, hr2]

/-- The `seen` vector grows by appending only: the input vector is a prefix
of the returned one. -/
theorem run_seen_prefix (g : ShaderFolder) :
    ∀ (fuel : Nat) (job : BuildJob) (seen : List String),
      seen <+: (run g fuel job seen).2 := by
  intro fuel
  induction fuel with
  | zero => intro job seen; simp [run]
  | succ fuel ih =>
    intro job seen
    cases job with
    | buildName name =>
      by_cases h : name ∈ seen
      · simp [run, h]
      · cases hl : load g name with
        | error e =>
          simp only [run, if_neg h, hl]
          exact List.prefix_append _ _
        | ok ls =>
          simp only [run, if_neg h, hl]
          exact (List.prefix_append _ _).trans (ih _ _)
    | moduleLines ls =>
      cases ls with
      | nil => simp [run]
      | cons line rest =>
        by_cases hs : strStarts line "#import"
        · cases hq : (splitQuote line)[1]? with
          | none => simp [run, hs, hq]
          | some inc =>
            have h1 := ih (.buildName inc) seen
            rcases hr : run g fuel (.buildName inc) seen with ⟨r1, seen1⟩
            rw [hr] at h1
            cases r1 with
            | ok content =>
              have h2 := ih (.moduleLines rest) seen1
              rcases hr2 : run g fuel (.moduleLines rest) seen1 with ⟨r2, seen2⟩
              rw [hr2] at h2
              cases r2 <;> simp [run, hs, hq, hr, hr2] <;> exact h1.trans h2
            | error e => simpa [run, hs, hq, hr] using h1
            | panicked m => simpa [run, hs, hq, hr] using h1
            | fuelOut => simpa [run, hs, hq, hr] using h1
        · have h2 := ih (.moduleLines rest) seen
          rcases hr2 : run g fuel (.moduleLines rest) seen with ⟨r2, seen1⟩
          rw [hr2] at h2
          cases r2 <;> simpa [run, hs, hr2] using h2

/-- Reachability along import edges is transitive. -/
theorem reachableMod_trans {g : ShaderFolder} {a b c : String}
    (h1 : ReachableMod g a b) (h2 : ReachableMod g b c) : ReachableMod g a c := by
  induction h2 with
  | root => exact h1
  | step _ himp ih => exact .step ih himp

/-- `moduleImports` on a leading import directive line. -/
theorem moduleImports_cons_import {line : String} {rest : List String}
    {inc : String} (hs : strStarts line "#import" = true)
    (hq : (splitQuote line)[1]? = some inc) :
    moduleImports (line :: rest) = inc :: moduleImports rest := by
  simp [moduleImports, List.filterMap_cons, hs, hq]

/-- `moduleImports` on a leading non-import line. -/
theorem moduleImports_cons_plain {line : String} {rest : List String}
    (hs : strStarts line "#import" = false) :
    moduleImports (line :: rest) = moduleImports rest := by
  simp [moduleImports, List.filterMap_cons, hs]

/-- Soundness of the visited trace: every module the resolver pushes is
either already in the initial vector or reachable along import edges (from
the resolved module, respectively from one of the line list's imports). -/
theorem run_visited_reachable (g : ShaderFolder) :
    ∀ fuel : Nat,
      (∀ (name : String) (seen : List String),
        ∀ m ∈ (run g fuel (.buildName name) seen).2,
          m ∈ seen ∨ ReachableMod g name m)
      ∧ (∀ (lines : List String) (seen : List String),
        ∀ m ∈ (run g fuel (.moduleLines lines) seen).2,
          m ∈ seen ∨ ∃ i ∈ moduleImports lines, ReachableMod g i m) := by
  intro fuel
  induction fuel with
  | zero => constructor <;> intro _ seen m hm <;> simp [run] at hm <;> exact Or.inl hm
  | succ fuel ih =>
    constructor
    · intro name seen m hm
      by_cases h : name ∈ seen
      · simp [run, h] at hm
        exact Or.inl hm
      · cases hl : load g name with
        | error e =>
          simp only [run, if_neg h, hl] at hm
          rcases List.mem_append.mp hm with hm | hm
          · exact Or.inl hm
          · simp at hm
            exact Or.inr (hm ▸ ReachableMod.root)
        | ok ls =>
          simp only [run, if_neg h, hl] at hm
          rcases (ih.2 ls (seen ++ [name])) m hm with hm' | ⟨i, hi, hri⟩
          · rcases List.mem_append.mp hm' with hm' | hm'
            · exact Or.inl hm'
            · simp at hm'
              exact Or.inr (hm' ▸ ReachableMod.root)
          · refine Or.inr (reachableMod_trans (ReachableMod.step .root ?_) hri)
            exact ⟨ls, load_ok_iff.mp hl, hi⟩
    · intro lines seen m hm
      cases lines with
      | nil =>
        simp [run] at hm
        exact Or.inl hm
      | cons line rest =>
        by_cases hs : strStarts line "#import"
        · cases hq : (splitQuote line)[1]? with
          | none =>
            simp [run, hs, hq] at hm
            exact Or.inl hm
          | some inc =>
            rcases hr : run g fuel (.buildName inc) seen with ⟨r1, seen1⟩
            have hP := ih.1 inc seen
            rw [hr] at hP
            cases r1 with
            | ok content =>
              rcases hr2 : run g fuel (.moduleLines rest) seen1 with ⟨r2, seen2⟩
              have hQ := ih.2 rest seen1
              rw [hr2] at hQ
              have hm2 : m ∈ seen2 := by
                cases r2 <;> simpa [run, hs, hq, hr, hr2] using hm
              rcases hQ m hm2 with hm1 | ⟨i, hi, hri⟩
              · rcases hP m hm1 with hm0 | hre
                · exact Or.inl hm0
                · exact Or.inr ⟨inc, by
                    rw [moduleImports_cons_import hs hq]; exact List.mem_cons_self .., hre⟩
              · exact Or.inr ⟨i, by
                  rw [moduleImports_cons_import hs hq]; exact List.mem_cons_of_mem _ hi, hri⟩
            | error e =>
              have hm1 : m ∈ seen1 := by simpa [run, hs, hq, hr] using hm
              rcases hP m hm1 with hm0 | hre
              · exact Or.inl hm0
              · exact Or.inr ⟨inc, by
                  rw [moduleImports_cons_import hs hq]; exact List.mem_cons_self .., hre⟩
            | panicked msg =>
              have hm1 : m ∈ seen1 := by simpa [run, hs, hq, hr] using hm
              rcases hP m hm1 with hm0 | hre
              · exact Or.inl hm0
              · exact Or.inr ⟨inc, by
                  rw [moduleImports_cons_import hs hq]; exact List.mem_cons_self .., hre⟩
            | fuelOut =>
              have hm1 : m ∈ seen1 := by simpa [run, hs, hq, hr] using hm
              rcases hP m hm1 with hm0 | hre
              · exact Or.inl hm0
              · exact Or.inr ⟨inc, by
                  rw [moduleImports_cons_import hs hq]; exact List.mem_cons_self .., hre⟩
        · rcases hr2 : run g fuel (.moduleLines rest) seen with ⟨r2, seen1⟩
          have hQ := ih.2 rest seen
          rw [hr2] at hQ
          have hm1 : m ∈ seen1 := by
            cases r2 <;> simpa [run, hs, hr2] using hm
          rcases hQ m hm1 with hm0 | ⟨i, hi, hri⟩
          · exact Or.inl hm0
          · refine Or.inr ⟨i, ?_, hri⟩
            rw [moduleImports_cons_plain (by simpa using hs)]
            exact hi

/-- Completeness support: when the resolver succeeds, the resolved module
is in the final trace, the line job's imports are all in the final trace,
and the final trace is closed under imports of its new members. -/
theorem run_ok_visited_closed (g : ShaderFolder) :
    ∀ fuel : Nat,
      (∀ (name : String) (seen : List String) (out : String) (sF : List String),
        run g fuel (.buildName name) seen = (.ok out, sF) →
          name ∈ sF ∧
          ∀ m ∈ sF, m ∉ seen → ∀ ls, getFile g m = some (.text ls) →
            ∀ i ∈ moduleImports ls, i ∈ sF)
      ∧ (∀ (lines : List String) (seen : List String) (out : String) (sF : List String),
        run g fuel (.moduleLines lines) seen = (.ok out, sF) →
          (∀ i ∈ moduleImports lines, i ∈ sF) ∧
          ∀ m ∈ sF, m ∉ seen → ∀ ls, getFile g m = some (.text ls) →
            ∀ i ∈ moduleImports ls, i ∈ sF) := by
  intro fuel
  induction fuel with
  | zero =>
    constructor <;> intro _ seen out sF hEq <;> simp [run] at hEq
  | succ fuel ih =>
    constructor
    · intro name seen out sF hEq
      by_cases h : name ∈ seen
      · simp only [run, if_pos h, Prod.mk.injEq] at hEq
        refine ⟨hEq.2 ▸ h, ?_⟩
        intro m hm hmn
        exact absurd (hEq.2 ▸ hm) hmn
      · cases hl : load g name with
        | error e => simp [run, if_neg h, hl] at hEq
        | ok ls =>
          simp only [run, if_neg h, hl] at hEq
          have hQ := ih.2 ls (seen ++ [name]) out sF hEq
          have hsub := run_seen_sub g fuel (.moduleLines ls) (seen ++ [name])
          rw [hEq] at hsub
          refine ⟨hsub (by simp), ?_⟩
          intro m hm hmn ls0 hget i hi
          by_cases hmName : m = name
          · subst hmName
            have hget' := load_ok_iff.mp hl
            rw [hget'] at hget
            have hls : ls0 = ls := by
              injection hget with hget1
              injection hget1 with hget2
              exact hget2.symm
            exact hQ.1 i (hls ▸ hi)
          · exact hQ.2 m hm (by simp [hmn, hmName]) ls0 hget i hi
    · intro lines seen out sF hEq
      cases lines with
      | nil =>
        simp only [run, Prod.mk.injEq] at hEq
        refine ⟨by simp [moduleImports], ?_⟩
        intro m hm hmn
        exact absurd (hEq.2 ▸ hm) hmn
      | cons line rest =>
        by_cases hs : strStarts line "#import"
        · cases hq : (splitQuote line)[1]? with
          | none => simp [run, hs, hq] at hEq
          | some inc =>
            rcases hr : run g fuel (.buildName inc) seen with ⟨r1, s1⟩
            cases r1 with
            | ok content =>
              rcases hr2 : run g fuel (.moduleLines rest) s1 with ⟨r2, s2⟩
              cases r2 with
              | ok restOut =>
                simp only [run, hs, hq, hr, hr2, if_pos, Prod.mk.injEq] at hEq
                have hsF : s2 = sF := hEq.2
                subst hsF
                have hP := ih.1 inc seen content s1 hr
                have hQ := ih.2 rest s1 restOut s2 hr2
                have hsub12 : s1 ⊆ s2 := by
                  have := run_seen_sub g fuel (.moduleLines rest) s1
                  rwa [hr2] at this
                constructor
                · intro i hi
                  rw [moduleImports_cons_import hs hq] at hi
                  rcases List.mem_cons.mp hi with hi | hi
                  · exact hi ▸ hsub12 hP.1
                  · exact hQ.1 i hi
                · intro m hm hmn ls0 hget i hi
                  by_cases hm1 : m ∈ s1
                  · exact hsub12 (hP.2 m hm1 hmn ls0 hget i hi)
                  · exact hQ.2 m hm hm1 ls0 hget i hi
              | error e => simp [run, hs, hq, hr, hr2] at hEq
              | panicked msg => simp [run, hs, hq, hr, hr2] at hEq
              | fuelOut => simp [run, hs, hq, hr, hr2] at hEq
            | error e => simp [run, hs, hq, hr] at hEq
            | panicked msg => simp [run, hs, hq, hr] at hEq
            | fuelOut => simp [run, hs, hq, hr] at hEq
        · rcases hr2 : run g fuel (.moduleLines rest) seen with ⟨r2, s1⟩
          cases r2 with
          | ok restOut =>
            simp [run, hs, hr2, Prod.mk.injEq] at hEq
            have hsF : s1 = sF := hEq.2
            subst hsF
            have hQ := ih.2 rest seen restOut s1 hr2
            refine ⟨?_, hQ.2⟩
            intro i hi
            rw [moduleImports_cons_plain (by simpa using hs)] at hi
            exact hQ.1 i hi
          | error e => simp [run, hs, hr2] at hEq
          | panicked msg => simp [run, hs, hr2] at hEq
          | fuelOut => simp [run, hs, hr2] at hEq

/-- Order of the visited trace: every module the resolver pushes appears
after a prefix `P1` of the final trace that extends the initial vector, and
it is either the resolved module itself (respectively a direct import of
the line job) or is imported by some module of `P1` — i.e. first
encounters happen in depth-first source order, each module's expansion
starting at its first import site. -/
theorem run_visited_order (g : ShaderFolder) :
    ∀ fuel : Nat,
      (∀ (name : String) (seen : List String) (r : BuildResult) (sF : List String),
        run g fuel (.buildName name) seen = (r, sF) →
        ∀ m ∈ sF, m ∈ seen ∨ ∃ P1 t, sF = P1 ++ m :: t ∧ seen <+: P1
          ∧ (m = name ∨ ∃ p ∈ P1, Imports g p m))
      ∧ (∀ (lines : List String) (seen : List String) (r : BuildResult) (sF : List String),
        run g fuel (.moduleLines lines) seen = (r, sF) →
        ∀ m ∈ sF, m ∈ seen ∨ ∃ P1 t, sF = P1 ++ m :: t ∧ seen <+: P1
          ∧ (m ∈ moduleImports lines ∨ ∃ p ∈ P1, Imports g p m)) := by
  intro fuel
  induction fuel with
  | zero =>
    constructor <;> intro _ seen r sF hEq m hm <;> simp [run] at hEq <;>
      exact Or.inl (hEq.2 ▸ hm)
  | succ fuel ih =>
    constructor
    · intro name seen r sF hEq m hm
      by_cases h : name ∈ seen
      · simp only [run, if_pos h, Prod.mk.injEq] at hEq
        exact Or.inl (hEq.2 ▸ hm)
      · cases hl : load g name with
        | error e =>
          simp only [run, if_neg h, hl, Prod.mk.injEq] at hEq
          rw [← hEq.2] at hm
          rcases List.mem_append.mp hm with hm | hm
          · exact Or.inl hm
          · simp at hm
            subst hm
            exact Or.inr ⟨seen, [], by simp [← hEq.2], List.prefix_refl _, Or.inl rfl⟩
        | ok ls =>
          simp only [run, if_neg h, hl] at hEq
          have hpre0 : seen ++ [name] <+: sF := by
            have := run_seen_prefix g fuel (.moduleLines ls) (seen ++ [name])
            rwa [hEq] at this
          rcases (ih.2 ls (seen ++ [name]) r sF hEq) m hm with hm' | ⟨P1, t, hdec, hpre, hcase⟩
          · rcases List.mem_append.mp hm' with hm' | hm'
            · exact Or.inl hm'
            · simp at hm'
              subst hm'
              obtain ⟨t, ht⟩ := hpre0
              exact Or.inr ⟨seen, t, by rw [← ht]; simp, List.prefix_refl _, Or.inl rfl⟩
          · refine Or.inr ⟨P1, t, hdec, (List.prefix_append seen [name]).trans hpre, ?_⟩
            rcases hcase with hm' | hp
            · exact Or.inr ⟨name, hpre.subset (by simp),
                ⟨ls, load_ok_iff.mp hl, hm'⟩⟩
            · exact Or.inr hp
    · intro lines seen r sF hEq m hm
      cases lines with
      | nil =>
        simp only [run, Prod.mk.injEq] at hEq
        exact Or.inl (hEq.2 ▸ hm)
      | cons line rest =>
        by_cases hs : strStarts line "#import"
        · cases hq : (splitQuote line)[1]? with
          | none =>
            simp only [run, hs, if_pos, hq, Prod.mk.injEq] at hEq
            exact Or.inl (hEq.2 ▸ hm)
          | some inc =>
            rcases hr : run g fuel (.buildName inc) seen with ⟨r1, s1⟩
            have liftP : (m ∈ seen ∨ ∃ P1 t, s1 = P1 ++ m :: t ∧ seen <+: P1
                ∧ (m = inc ∨ ∃ p ∈ P1, Imports g p m)) →
                m ∈ seen ∨ ∃ P1 t, s1 = P1 ++ m :: t ∧ seen <+: P1
                  ∧ (m ∈ moduleImports (line :: rest) ∨ ∃ p ∈ P1, Imports g p m) := by
              rintro (hm0 | ⟨P1, t, hdec, hpre, hcase⟩)
              · exact Or.inl hm0
              · refine Or.inr ⟨P1, t, hdec, hpre, ?_⟩
                rcases hcase with hm' | hp
                · subst hm'
                  exact Or.inl (by rw [moduleImports_cons_import hs hq]; exact .head _)
                · exact Or.inr hp
            cases r1 with
            | ok content =>
              rcases hr2 : run g fuel (.moduleLines rest) s1 with ⟨r2, s2⟩
              have hsF : sF = s2 := by
                cases r2 <;> simp only [run, hs, hq, hr, hr2, if_pos,
                  Prod.mk.injEq] at hEq <;> exact hEq.2.symm
              subst hsF
              have hpre12 : s1 <+: sF := by
                have := run_seen_prefix g fuel (.moduleLines rest) s1
                rwa [hr2] at this
              by_cases hm1 : m ∈ s1
              · rcases liftP ((ih.1 inc seen (.ok content) s1 hr) m hm1) with
                  hm0 | ⟨P1, t, hdec, hpre, hcase⟩
                · exact Or.inl hm0
                · obtain ⟨u, hu⟩ := hpre12
                  exact Or.inr ⟨P1, t ++ u, by rw [← hu, hdec]; simp, hpre, hcase⟩
              · rcases (ih.2 rest s1 r2 sF hr2) m hm with hm0 | ⟨P1, t, hdec, hpre, hcase⟩
                · exact absurd hm0 hm1
                · have hpre01 : seen <+: s1 := by
                    have := run_seen_prefix g fuel (.buildName inc) seen
                    rwa [hr] at this
                  refine Or.inr ⟨P1, t, hdec, hpre01.trans hpre, ?_⟩
                  rcases hcase with hm' | hp
                  · exact Or.inl (by
                      rw [moduleImports_cons_import hs hq]; exact .tail _ hm')
                  · exact Or.inr hp
            | error e =>
              have hsF : sF = s1 := by
                simp only [run, hs, hq, hr, if_pos, Prod.mk.injEq] at hEq
                exact hEq.2.symm
              subst hsF
              exact liftP ((ih.1 inc seen (.error e) sF hr) m hm)
            | panicked msg =>
              have hsF : sF = s1 := by
                simp only [run, hs, hq, hr, if_pos, Prod.mk.injEq] at hEq
                exact hEq.2.symm
              subst hsF
              exact liftP ((ih.1 inc seen (.panicked msg) sF hr) m hm)
            | fuelOut =>
              have hsF : sF = s1 := by
                simp only [run, hs, hq, hr, if_pos, Prod.mk.injEq] at hEq
                exact hEq.2.symm
              subst hsF
              exact liftP ((ih.1 inc seen .fuelOut sF hr) m hm)
        · rcases hr2 : run g fuel (.moduleLines rest) seen with ⟨r2, s1⟩
          have hsF : sF = s1 := by
            cases r2 <;> simp [run, hs, hr2, Prod.mk.injEq] at hEq <;> exact hEq.2.symm
          subst hsF
          rcases (ih.2 rest seen r2 sF hr2) m hm with hm0 | ⟨P1, t, hdec, hpre, hcase⟩
          · exact Or.inl hm0
          · refine Or.inr ⟨P1, t, hdec, hpre, ?_⟩
            rcases hcase with hm' | hp
            · exact Or.inl (by
                rw [moduleImports_cons_plain (by simpa using hs)]; exact hm')
            · exact Or.inr hp

/-- Body lines reach the output: when the resolver succeeds, every
non-import line of the current line job, and every non-import line of every
newly visited module, occurs in the output text. -/
theorem run_ok_lines_in_output (g : ShaderFolder) :
    ∀ fuel : Nat,
      (∀ (name : String) (seen : List String) (out : String) (sF : List String),
        run g fuel (.buildName name) seen = (.ok out, sF) →
        ∀ m ∈ sF, m ∉ seen → ∀ ls, getFile g m = some (.text ls) →
          ∀ l ∈ ls, strStarts l "#import" = false → l.data <:+: out.data)
      ∧ (∀ (lines : List String) (seen : List String) (out : String) (sF : List String),
        run g fuel (.moduleLines lines) seen = (.ok out, sF) →
        (∀ l ∈ lines, strStarts l "#import" = false → l.data <:+: out.data)
          ∧ ∀ m ∈ sF, m ∉ seen → ∀ ls, getFile g m = some (.text ls) →
            ∀ l ∈ ls, strStarts l "#import" = false → l.data <:+: out.data) := by
  intro fuel
  induction fuel with
  | zero =>
    constructor <;> intro _ seen out sF hEq <;> simp [run] at hEq
  | succ fuel ih =>
    constructor
    · intro name seen out sF hEq m hm hmn ls0 hget l hl himp
      by_cases h : name ∈ seen
      · simp only [run, if_pos h, Prod.mk.injEq] at hEq
        exact absurd (hEq.2 ▸ hm) hmn
      · cases hl' : load g name with
        | error e => simp [run, if_neg h, hl'] at hEq
        | ok ls =>
          simp only [run, if_neg h, hl'] at hEq
          have hQ := ih.2 ls (seen ++ [name]) out sF hEq
          by_cases hmName : m = name
          · subst hmName
            have hget' := load_ok_iff.mp hl'
            rw [hget'] at hget
            have hls : ls0 = ls := by
              injection hget with hget1
              injection hget1 with hget2
              exact hget2.symm
            exact hQ.1 l (hls ▸ hl) himp
          · exact hQ.2 m hm (by simp [hmn, hmName]) ls0 hget l hl himp
    · intro lines seen out sF hEq
      cases lines with
      | nil =>
        simp only [run, Prod.mk.injEq] at hEq
        constructor
        · intro l hl
          exact absurd hl (List.not_mem_nil l)
        · intro m hm hmn
          exact absurd (hEq.2 ▸ hm) hmn
      | cons line rest =>
        by_cases hs : strStarts line "#import"
        · cases hq : (splitQuote line)[1]? with
          | none => simp [run, hs, hq] at hEq
          | some inc =>
            rcases hr : run g fuel (.buildName inc) seen with ⟨r1, s1⟩
            cases r1 with
            | ok content =>
              rcases hr2 : run g fuel (.moduleLines rest) s1 with ⟨r2, s2⟩
              cases r2 with
              | ok restOut =>
                simp only [run, hs, hq, hr, hr2, if_pos, Prod.mk.injEq,
                  BuildResult.ok.injEq] at hEq
                obtain ⟨hout, hsF⟩ := hEq
                subst hsF
                have hQ := ih.2 rest s1 restOut s2 hr2
                have hrest : restOut.data <:+: out.data := by
                  rw [← hout]
                  simp only [String.data_append]
                  exact (List.suffix_append _ _).isInfix
                have hcont : content.data <:+: out.data := by
                  rw [← hout]
                  simp only [String.data_append]
                  exact ((List.suffix_append _ content.data).isInfix.trans
                    (List.prefix_append _ _).isInfix)
                constructor
                · intro l hl himp
                  rcases List.mem_cons.mp hl with hl | hl
                  · rw [hl] at himp
                    rw [himp] at hs
                    cases hs
                  · exact (hQ.1 l hl himp).trans hrest
                · intro m hm hmn ls0 hget l hl himp
                  by_cases hm1 : m ∈ s1
                  · exact ((ih.1 inc seen content s1 hr) m hm1 hmn ls0 hget l hl himp).trans
                      hcont
                  · exact (hQ.2 m hm hm1 ls0 hget l hl himp).trans hrest
              | error e => simp [run, hs, hq, hr, hr2] at hEq
              | panicked msg => simp [run, hs, hq, hr, hr2] at hEq
              | fuelOut => simp [run, hs, hq, hr, hr2] at hEq
            | error e => simp [run, hs, hq, hr] at hEq
            | panicked msg => simp [run, hs, hq, hr] at hEq
            | fuelOut => simp [run, hs, hq, hr] at hEq
        · rcases hr2 : run g fuel (.moduleLines rest) seen with ⟨r2, s1⟩
          cases r2 with
          | ok restOut =>
            simp only [run, hs, Bool.false_eq_true, if_false, hr2, Prod.mk.injEq,
              BuildResult.ok.injEq] at hEq
            obtain ⟨hout, hsF⟩ := hEq
            subst hsF
            have hQ := ih.2 rest seen restOut s1 hr2
            have hrest : restOut.data <:+: out.data := by
              rw [← hout]
              simp only [String.data_append]
              exact (List.suffix_append _ _).isInfix
            constructor
            · intro l hl himp
              rcases List.mem_cons.mp hl with hl | hl
              · subst hl
                rw [← hout]
                simp only [String.data_append]
                rw [List.append_assoc]
                exact (List.prefix_append _ _).isInfix
              · exact (hQ.1 l hl himp).trans hrest
            · intro m hm hmn ls0 hget l hl himp
              exact (hQ.2 m hm hmn ls0 hget l hl himp).trans hrest
          | error e => simp [run, hs, hr2] at hEq
          | panicked msg => simp [run, hs, hr2] at hEq
          | fuelOut => simp [run, hs, hr2] at hEq

/-! Claims about the shader resolver. -/

/-- C1: for every import graph, acyclic or cyclic, `build`/`build_with_seen`
terminates (the fuel bound `folderSize g + 1` used by `build` is never
exhausted) and each module's body appears in the output at most once: the
returned visited vector has no duplicate, and a module's body is emitted
exactly when its name is pushed onto that vector.  Concretely, for the
2-cycle where `A` imports `B` and `B` imports `A`, `build "A"` returns
finite text containing `A`'s own code and `B`'s own code exactly once
each. -/
theorem c1_resolver_terminates_body_at_most_once :
    (∀ (g : ShaderFolder) (name : String), ShaderBuilder.build g name ≠ .fuelOut)
    ∧ (∀ (g : ShaderFolder) (fuel : Nat) (name : String),
        ((ShaderBuilder.build_with_seen g fuel name []).2).Nodup)
    ∧ ShaderBuilder.build twoCycleFolder "A" =
        .ok "//#import \"B\"\n //#import \"A\"\n code_B\ncode_A\n"
    ∧ occurrences "//#import \"B\"\n //#import \"A\"\n code_B\ncode_A\n" "code_A" = 1
    ∧ occurrences "//#import \"B\"\n //#import \"A\"\n code_B\ncode_A\n" "code_B" = 1 := by
  refine ⟨fun g name => ?_, fun g fuel name => run_nodup g fuel _ [] List.nodup_nil,
    by decide, by decide, by decide⟩
  exact run_no_fuelOut g _ _ _ (by simp [jobCost, folderSize])

/-- C2: for every import graph (in particular every acyclic one), the
resolver expands each reachable module exactly once, in first-encountered
source order, and later occurrences are silently elided.  A module's body
is emitted exactly when its name is pushed onto the visited vector, so the
universal content is proved through the visited trace `buildVisited`:
(1) the trace has no duplicates — no body is emitted twice;
(2) on success the trace holds exactly the modules reachable along import
edges — each reachable module's body is emitted exactly once;
(3) first-encountered order: every visited module other than the root is
imported by some module strictly earlier in the trace (its expansion starts
at its first import site, imports being traversed in source order);
(4) on success every non-import body line of every visited module occurs
in the output text.
Concretely: when `A` imports `B` twice, `B`'s body occurs exactly once and
the second import is elided; the acyclic diamond gives the exact output,
the first-encounter trace `["A", "B", "D", "C"]`, and each body once. -/
theorem c2_acyclic_each_body_once :
    (∀ (g : ShaderFolder) (name : String), (buildVisited g name).Nodup)
    ∧ (∀ (g : ShaderFolder) (name out : String),
        ShaderBuilder.build g name = .ok out →
        ∀ m, m ∈ buildVisited g name ↔ ReachableMod g name m)
    ∧ (∀ (g : ShaderFolder) (name : String), ∀ m ∈ buildVisited g name,
        m = name ∨ ∃ p, Imports g p m ∧ List.Sublist [p, m] (buildVisited g name))
    ∧ (∀ (g : ShaderFolder) (name out : String),
        ShaderBuilder.build g name = .ok out →
        ∀ m ∈ buildVisited g name, ∀ ls, getFile g m = some (.text ls) →
          ∀ l ∈ ls, strStarts l "#import" = false → l.data <:+: out.data)
    ∧ ShaderBuilder.build twiceFolder "A" =
        .ok "//#import \"B\"\n code_B\n//#import \"B\"\n code_A\n"
    ∧ occurrences "//#import \"B\"\n code_B\n//#import \"B\"\n code_A\n" "code_B" = 1
    ∧ ShaderBuilder.build diamondFolder "A" =
        .ok "//#import \"B\"\n //#import \"D\"\n code_D\ncode_B\n//#import \"C\"\n //#import \"D\"\n code_C\ncode_A\n"
    ∧ buildVisited diamondFolder "A" = ["A", "B", "D", "C"]
    ∧ occurrences "//#import \"B\"\n //#import \"D\"\n code_D\ncode_B\n//#import \"C\"\n //#import \"D\"\n code_C\ncode_A\n" "code_A" = 1
    ∧ occurrences "//#import \"B\"\n //#import \"D\"\n code_D\ncode_B\n//#import \"C\"\n //#import \"D\"\n code_C\ncode_A\n" "code_B" = 1
    ∧ occurrences "//#import \"B\"\n //#import \"D\"\n code_D\ncode_B\n//#import \"C\"\n //#import \"D\"\n code_C\ncode_A\n" "code_C" = 1
    ∧ occurrences "//#import \"B\"\n //#import \"D\"\n code_D\ncode_B\n//#import \"C\"\n //#import \"D\"\n code_C\ncode_A\n" "code_D" = 1 := by
  refine ⟨fun g name => run_nodup g _ _ [] List.nodup_nil, ?_, ?_, ?_,
    by decide, by decide, by decide, by decide, by decide, by decide, by decide, by decide⟩
  · intro g name out hok m
    rcases hEq : run g (ShaderBuilder.folderSize g + 1) (.buildName name) [] with ⟨r, sF⟩
    have hr : r = .ok out := by
      have : (run g (ShaderBuilder.folderSize g + 1) (.buildName name) []).1 = .ok out := hok
      rw [hEq] at this
      exact this
    subst hr
    have hvis : buildVisited g name = sF := by
      have : (run g (ShaderBuilder.folderSize g + 1) (.buildName name) []).2 = sF := by
        rw [hEq]
      exact this
    have hclosed := (run_ok_visited_closed g (ShaderBuilder.folderSize g + 1)).1
      name [] out sF hEq
    rw [hvis]
    constructor
    · intro hm
      rcases (run_visited_reachable g (ShaderBuilder.folderSize g + 1)).1 name [] m
        (by rw [hEq] at *; exact hm) with hm0 | hre
      · exact absurd hm0 (List.not_mem_nil m)
      · exact hre
    · intro hre
      induction hre with
      | root => exact hclosed.1
      | step hrm himp ihm =>
        rcases himp with ⟨ls, hget, hi⟩
        exact hclosed.2 _ ihm (List.not_mem_nil _) ls hget _ hi
  · intro g name m hm
    rcases (run_visited_order g (ShaderBuilder.folderSize g + 1)).1 name []
      (run g (ShaderBuilder.folderSize g + 1) (.buildName name) []).1
      (buildVisited g name) rfl m hm with hm0 | ⟨P1, t, hdec, _, hcase⟩
    · exact absurd hm0 (List.not_mem_nil m)
    · rcases hcase with hm' | ⟨p, hp, himp⟩
      · exact Or.inl hm'
      · refine Or.inr ⟨p, himp, ?_⟩
        rw [hdec]
        exact List.Sublist.append (List.singleton_sublist.mpr hp)
          (List.Sublist.cons₂ m (List.nil_sublist t))
  · intro g name out hok m hm ls hget l hl himp
    rcases hEq : run g (ShaderBuilder.folderSize g + 1) (.buildName name) [] with ⟨r, sF⟩
    have hr : r = .ok out := by
      have : (run g (ShaderBuilder.folderSize g + 1) (.buildName name) []).1 = .ok out := hok
      rw [hEq] at this
      exact this
    subst hr
    have hm' : m ∈ sF := by
      have : m ∈ (run g (ShaderBuilder.folderSize g + 1) (.buildName name) []).2 := hm
      rw [hEq] at this
      exact this
    exact (run_ok_lines_in_output g (ShaderBuilder.folderSize g + 1)).1 name [] out sF
      hEq m hm' (List.not_mem_nil m) ls hget l hl himp

/-- Witness for C2's universal parts at concrete inputs: the trace-equals-
reachable equivalence for `B` in the diamond, a strictly earlier importer
for `B` in the 2-cycle, and the occurrence of `D`'s body line in the
diamond's output. -/
theorem c2_acyclic_each_body_once_witness :
    (("B" ∈ buildVisited diamondFolder "A") ↔ ReachableMod diamondFolder "A" "B")
    ∧ ("B" = "A" ∨ ∃ p, Imports twoCycleFolder p "B"
        ∧ List.Sublist [p, "B"] (buildVisited twoCycleFolder "A"))
    ∧ "code_D".data <:+:
        "//#import \"B\"\n //#import \"D\"\n code_D\ncode_B\n//#import \"C\"\n //#import \"D\"\n code_C\ncode_A\n".data :=
  ⟨c2_acyclic_each_body_once.2.1 diamondFolder "A"
      "//#import \"B\"\n //#import \"D\"\n code_D\ncode_B\n//#import \"C\"\n //#import \"D\"\n code_C\ncode_A\n"
      (by decide) "B",
   c2_acyclic_each_body_once.2.2.1 twoCycleFolder "A" "B" (by decide),
   c2_acyclic_each_body_once.2.2.2.1 diamondFolder "A"
      "//#import \"B\"\n //#import \"D\"\n code_D\ncode_B\n//#import \"C\"\n //#import \"D\"\n code_C\ncode_A\n"
      (by decide) "D" (by decide) ["code_D"] (by decide) "code_D" (by decide) (by decide)⟩

/-- C5: a module that cannot be found, or whose bytes are not valid UTF-8,
resolves to a `ShaderNotFound` error value (with the exact message built by
`load`); no panic or other unrecoverable fault occurs, and the error is
returned directly from the point of the failed load. -/
theorem c5_missing_module_returns_not_found :
    ∀ (g : ShaderFolder) (name : String),
      (getFile g name = none →
        ShaderBuilder.build g name =
          .error (.ShaderNotFound ("Could not load shader file: " ++ name)))
      ∧ (getFile g name = some .invalidUtf8 →
        ShaderBuilder.build g name =
          .error (.ShaderNotFound ("Shader file " ++ name ++ " is not a valid utf8."))) := by
  intro g name
  constructor
  · intro h
    simp [ShaderBuilder.build, build_with_seen, run, load, h]
  · intro h
    simp [ShaderBuilder.build, build_with_seen, run, load, h]

/-- Witness for C5 at concrete inputs: the empty folder misses "missing",
and `badUtf8Folder` holds invalid bytes under "bad". -/
theorem c5_missing_module_returns_not_found_witness :
    ShaderBuilder.build ([] : ShaderFolder) "missing" =
      .error (.ShaderNotFound ("Could not load shader file: " ++ "missing"))
    ∧ ShaderBuilder.build badUtf8Folder "bad" =
      .error (.ShaderNotFound ("Shader file " ++ "bad" ++ " is not a valid utf8.")) :=
  ⟨(c5_missing_module_returns_not_found [] "missing").1 (by decide),
   (c5_missing_module_returns_not_found badUtf8Folder "bad").2 (by decide)⟩

/-- C6 counterexample: the claim says a failed load leaves the failing
module's name out of the caller's visited set.  In the code the name is
pushed *before* `load` is attempted, so after resolving the missing module
"missing" from an empty visited set, the error is returned with "missing"
still in the visited vector. -/
theorem c6_visited_set_counterexample :
    (ShaderBuilder.build_with_seen ([] : ShaderFolder) 1 "missing" []).1 =
      .error (.ShaderNotFound "Could not load shader file: missing")
    ∧ "missing" ∈ (ShaderBuilder.build_with_seen ([] : ShaderFolder) 1 "missing" []).2 := by
  decide

/-- C6 amended: when the module cannot be loaded the `ShaderNotFound` error
propagates immediately, and the only mutation of the caller's visited set
is that the failing module's name has been pushed (before the load attempt)
and remains there; a retry through `build` is unaffected because `build`
passes a fresh empty vector. -/
theorem c6_visited_set_amended :
    ∀ (g : ShaderFolder) (fuel : Nat) (name : String) (seen : List String)
      (e : ProgramError),
      name ∉ seen → ShaderBuilder.load g name = .error e →
      ShaderBuilder.build_with_seen g (fuel + 1) name seen = (.error e, seen ++ [name]) := by
  intro g fuel name seen e hn hl
  simp [build_with_seen, run, hn, hl]

/-- Witness for C6 amended at the concrete input of the counterexample. -/
theorem c6_visited_set_amended_witness :
    ("missing" ∉ ([] : List String))
    ∧ ShaderBuilder.load ([] : ShaderFolder) "missing" =
        .error (.ShaderNotFound "Could not load shader file: missing")
    ∧ ShaderBuilder.build_with_seen ([] : ShaderFolder) 1 "missing" [] =
        (.error (.ShaderNotFound "Could not load shader file: missing"), ["missing"]) :=
  ⟨by decide, rfl,
   c6_visited_set_amended [] 0 "missing" []
     (.ShaderNotFound "Could not load shader file: missing") (by decide) rfl⟩

/-- C7 counterexample: the claim says an import line naming an
already-visited module contributes the empty string to the output, nothing
else.  For the self-importing module `A`, the line `#import "A"` names the
already-visited `A`, yet the output for that line is the commented import
line plus a newline and a space, which is not the empty string. -/
theorem c7_already_seen_line_counterexample :
    ShaderBuilder.build selfImportFolder "A" = .ok "//#import \"A\"\n "
    ∧ "//#import \"A\"\n " ≠ "" := by
  decide

/-- C7 amended: for an import line whose quoted module `inc` is already in
the visited set, the empty string is substituted for `inc`'s *expansion*,
but the line itself is still emitted rewritten as a comment (followed by a
newline and a space); for a not-yet-visited `inc` the line's output is the
commented import line followed by `inc`'s expansion. -/
theorem c7_already_seen_line_amended :
    ∀ (g : ShaderFolder) (fuel : Nat) (line : String) (seen : List String)
      (inc : String),
      strStarts line "#import" = true → (splitQuote line)[1]? = some inc →
      (inc ∈ seen →
        ShaderBuilder.buildLines g (fuel + 2) [line] seen =
          (.ok ("//" ++ line ++ "\n "), seen))
      ∧ (inc ∉ seen →
        ShaderBuilder.buildLines g (fuel + 2) [line] seen =
          (match ShaderBuilder.build_with_seen g (fuel + 1) inc seen with
           | (.ok content, seen1) => (.ok ("//" ++ line ++ "\n " ++ content), seen1)
           | other => other)) := by
  intro g fuel line seen inc hs hq
  constructor
  · intro hmem
    simp [buildLines, run, hs, hq, hmem]
  · intro hmem
    rcases hr : run g (fuel + 1) (.buildName inc) seen with ⟨r1, seen1⟩
    cases r1 with
    | ok content => simp [buildLines, build_with_seen, run, hs, hq, hr]
    | error e => simp [buildLines, build_with_seen, run, hs, hq, hr]
    | panicked m => simp [buildLines, build_with_seen, run, hs, hq, hr]
    | fuelOut => simp [buildLines, build_with_seen, run, hs, hq, hr]

/-- Witness for C7 amended at concrete inputs: the already-seen case with
`X` visited, and the fresh case where resolving `X` fails as not found. -/
theorem c7_already_seen_line_amended_witness :
    strStarts "#import \"X\"" "#import" = true
    ∧ (splitQuote "#import \"X\"")[1]? = some "X"
    ∧ ("X" ∈ ["X"])
    ∧ ShaderBuilder.buildLines ([] : ShaderFolder) 2 ["#import \"X\""] ["X"] =
        (.ok ("//" ++ "#import \"X\"" ++ "\n "), ["X"])
    ∧ ("X" ∉ ([] : List String))
    ∧ ShaderBuilder.buildLines ([] : ShaderFolder) 2 ["#import \"X\""] [] =
        (match ShaderBuilder.build_with_seen ([] : ShaderFolder) 1 "X" [] with
         | (.ok content, seen1) => (.ok ("//" ++ "#import \"X\"" ++ "\n " ++ content), seen1)
         | other => other) :=
  ⟨by decide, by decide, by decide,
   (c7_already_seen_line_amended [] 0 "#import \"X\"" ["X"] "X" (by decide) (by decide)).1
     (by decide),
   by decide,
   (c7_already_seen_line_amended [] 0 "#import \"X\"" [] "X" (by decide) (by decide)).2
     (by decide)⟩

/-- C10 counterexample: the claim says every module text containing a line
that starts with `#import` but has no quoted segment makes `build_with_seen`
panic.  In `badSyntaxFolder`, module `A` contains such a line
(`#import noquote`), but its first line imports the missing module
"missing"; the collect stops at that `Err`, the unquoted line is never
evaluated, and the resolver returns the NotFound error instead of
panicking. -/
theorem c10_unquoted_import_counterexample :
    getFile badSyntaxFolder "A" =
      some (.text ["#import \"missing\"", "#import noquote"])
    ∧ strStarts "#import noquote" "#import" = true
    ∧ (splitQuote "#import noquote")[1]? = none
    ∧ ShaderBuilder.build badSyntaxFolder "A" =
        .error (.ShaderNotFound "Could not load shader file: missing") := by
  decide

/-- C10 amended: a line that starts with `#import` and has no quoted
segment (no `"` at all) makes the resolver panic through the `expect` when
that line is evaluated: evaluating such a line yields the panic
immediately, and a module whose first line is such a line panics under
`build`; a line after an earlier erroring line is never evaluated. -/
theorem c10_unquoted_import_amended :
    (∀ (g : ShaderFolder) (fuel : Nat) (line : String) (rest : List String)
      (seen : List String),
      strStarts line "#import" = true → (splitQuote line)[1]? = none →
      ShaderBuilder.buildLines g (fuel + 1) (line :: rest) seen =
        (.panicked "Invalid import syntax: expected #import \"file\"", seen))
    ∧ (∀ (g : ShaderFolder) (name : String) (line : String) (rest : List String),
      getFile g name = some (.text (line :: rest)) →
      strStarts line "#import" = true → (splitQuote line)[1]? = none →
      ShaderBuilder.build g name =
        .panicked "Invalid import syntax: expected #import \"file\"") := by
  constructor
  · intro g fuel line rest seen hs hq
    simp [buildLines, run, hs, hq]
  · intro g name line rest hf hs hq
    have hl : ShaderBuilder.load g name = .ok (line :: rest) := load_ok_iff.mpr hf
    have hb := pendingSize_getFile g (List.not_mem_nil name) hf
    have hfs : (line :: rest).length + 1 ≤ ShaderBuilder.folderSize g := by
      simp only [folderSize]
      omega
    obtain ⟨k, hk⟩ : ∃ k, ShaderBuilder.folderSize g = k + 1 :=
      ⟨ShaderBuilder.folderSize g - 1, by simp at hfs; omega⟩
    simp only [ShaderBuilder.build, build_with_seen, hk]
    simp [run, hl, hs, hq]

/-- Witness for C10 amended at concrete inputs: evaluating the unquoted
line panics, and the module whose first line is unquoted panics under
`build`. -/
theorem c10_unquoted_import_amended_witness :
    strStarts "#import noquote" "#import" = true
    ∧ (splitQuote "#import noquote")[1]? = none
    ∧ ShaderBuilder.buildLines ([] : ShaderFolder) 1 ["#import noquote"] [] =
        (.panicked "Invalid import syntax: expected #import \"file\"", [])
    ∧ getFile unquotedFirstFolder "A" = some (.text ["#import noquote"])
    ∧ ShaderBuilder.build unquotedFirstFolder "A" =
        .panicked "Invalid import syntax: expected #import \"file\"" :=
  ⟨by decide, by decide,
   c10_unquoted_import_amended.1 [] 0 "#import noquote" [] [] (by decide) (by decide),
   by decide,
   c10_unquoted_import_amended.2 unquotedFirstFolder "A" "#import noquote" []
     (by decide) (by decide) (by decide)⟩

/-! Claims about the reload state machine. -/

/-- The flags after one orchestrator tick: the pending shader list is
always empty afterwards, and the phase is `Stable` exactly when it was
`Stable` or `Reloaded` before. -/
theorem orchestratorTick_flags (o1 o2 : Except ProgramError Unit) (f : ReloadFlags) :
    (orchestratorTick o1 o2 f).1 =
      ⟨[], if f.lib = .Reloaded then .Stable else f.lib⟩ := by
  rcases f with ⟨sh, lib⟩
  by_cases h1 : sh = [] <;> cases lib <;> simp [orchestratorTick, h1]

/-- Invariant: whenever the monitor thread is blocked in
`wait_for_reload()`, the phase is `Reloading` (only the monitor's first
half sets `Reloading`, and nothing else can change the phase until its
second half runs). -/
theorem reachable_waitReload_lib {s : SysState} (h : Reachable s) :
    s.pc = .waitReload → s.flags.lib = .Reloading := by
  induction h with
  | refl => intro hpc; simp [initState] at hpc
  | tail _ hbc ih =>
    cases hbc with
    | monitorAbout ht => intro _; rfl
    | monitorComplete ht => intro hpc; simp at hpc
    | watcher paths => intro hpc; exact ih hpc
    | tick o1 o2 =>
      intro hpc
      have hlib := ih hpc
      simp [orchestratorTick_flags, hlib]

/-- C3 counterexample: the claim says every reachable phase transition
follows exactly the cycle `Stable → Reloading → Reloaded → Stable` with no
transition skipped.  But the state with phase `Reloaded` and the monitor
back at `wait_for_about_to_reload()` is reachable (one complete swap with
no orchestrator tick in between), and from it a second swap beginning
drives the phase directly `Reloaded → Reloading`, skipping `Stable`. -/
theorem c3_phase_cycle_counterexample :
    Reachable ⟨⟨[], .Reloaded⟩, .waitAbout⟩
    ∧ SysStep ⟨⟨[], .Reloaded⟩, .waitAbout⟩ ⟨⟨[], .Reloading⟩, .waitReload⟩
    ∧ LibState.Reloading ≠ LibState.Stable := by
  refine ⟨?_, SysStep.monitorAbout _ rfl, by decide⟩
  exact Relation.ReflTransGen.tail
    (Relation.ReflTransGen.tail Relation.ReflTransGen.refl
      (SysStep.monitorAbout initState rfl))
    (SysStep.monitorComplete _ rfl)

/-- C3 amended: every reachable transition either leaves the phase
unchanged or follows the cycle `Stable → Reloading → Reloaded → Stable`,
except that a new swap may begin while the phase is still `Reloaded`,
adding the transition `Reloaded → Reloading`; and driving one full cycle
(monitor about-to-reload, monitor reload-complete, one orchestrator tick)
from `Stable` leaves the pending paths empty and the phase `Stable`,
regardless of the rebuild outcomes. -/
theorem c3_phase_cycle_amended :
    (∀ (s t : SysState), Reachable s → SysStep s t →
      t.flags.lib = s.flags.lib
      ∨ (s.flags.lib = .Stable ∧ t.flags.lib = .Reloading)
      ∨ (s.flags.lib = .Reloading ∧ t.flags.lib = .Reloaded)
      ∨ (s.flags.lib = .Reloaded ∧ t.flags.lib = .Stable)
      ∨ (s.flags.lib = .Reloaded ∧ t.flags.lib = .Reloading))
    ∧ (∀ (sh : List String) (o1 o2 : Except ProgramError Unit),
      (orchestratorTick o1 o2
        (monitorReloadComplete (monitorAboutToReload ⟨sh, .Stable⟩))).1 =
        ⟨[], .Stable⟩) := by
  constructor
  · intro s t hr hst
    cases hst with
    | monitorAbout hu =>
      cases hlib : s.flags.lib with
      | Stable => exact Or.inr (Or.inl ⟨rfl, rfl⟩)
      | Reloading => exact Or.inl (by simp [monitorAboutToReload, hlib])
      | Reloaded => exact Or.inr (Or.inr (Or.inr (Or.inr ⟨rfl, rfl⟩)))
    | monitorComplete hu =>
      exact Or.inr (Or.inr (Or.inl ⟨reachable_waitReload_lib hr hu, rfl⟩))
    | watcher paths => exact Or.inl rfl
    | tick o1 o2 =>
      cases hlib : s.flags.lib with
      | Stable => exact Or.inl (by simp [orchestratorTick_flags, hlib])
      | Reloading => exact Or.inl (by simp [orchestratorTick_flags, hlib])
      | Reloaded =>
        exact Or.inr (Or.inr (Or.inr (Or.inl
          ⟨rfl, by simp [orchestratorTick_flags, hlib]⟩)))
  · intro sh o1 o2
    rw [orchestratorTick_flags]
    rfl

/-- Witness for C3 amended: the first swap step out of the initial state is
a `Stable → Reloading` transition, and one concrete full cycle from
`Stable` with a pending path ends with no pending paths and phase
`Stable`. -/
theorem c3_phase_cycle_amended_witness :
    ((⟨monitorAboutToReload initState.flags, .waitReload⟩ : SysState).flags.lib =
        initState.flags.lib
      ∨ (initState.flags.lib = .Stable
          ∧ (⟨monitorAboutToReload initState.flags, .waitReload⟩ : SysState).flags.lib =
              .Reloading)
      ∨ (initState.flags.lib = .Reloading
          ∧ (⟨monitorAboutToReload initState.flags, .waitReload⟩ : SysState).flags.lib =
              .Reloaded)
      ∨ (initState.flags.lib = .Reloaded
          ∧ (⟨monitorAboutToReload initState.flags, .waitReload⟩ : SysState).flags.lib =
              .Stable)
      ∨ (initState.flags.lib = .Reloaded
          ∧ (⟨monitorAboutToReload initState.flags, .waitReload⟩ : SysState).flags.lib =
              .Reloading))
    ∧ (orchestratorTick (.ok ()) (.ok ())
        (monitorReloadComplete (monitorAboutToReload ⟨["x.wgsl"], .Stable⟩))).1 =
        ⟨[], .Stable⟩ :=
  ⟨c3_phase_cycle_amended.1 initState _ Relation.ReflTransGen.refl
    (SysStep.monitorAbout initState rfl),
   c3_phase_cycle_amended.2 ["x.wgsl"] (.ok ()) (.ok ())⟩

/-- C4: on every orchestrator tick with a non-empty pending-paths list,
`update_program_passes` is invoked exactly once at the shader-drain call
site, whatever the outcomes of the rebuild calls; the pending list is
cleared afterwards even when the rebuild failed, and a tick on the
resulting state performs no further shader-drain rebuild (no automatic
retry). -/
theorem c4_shader_drain_exactly_once :
    ∀ (f : ReloadFlags) (o1 o2 : Except ProgramError Unit),
      f.shaders ≠ [] →
      (orchestratorTick o1 o2 f).2.count .rebuildPassesShaders = 1
      ∧ (orchestratorTick o1 o2 f).1.shaders = []
      ∧ ∀ (o3 o4 : Except ProgramError Unit),
          (orchestratorTick o3 o4 (orchestratorTick o1 o2 f).1).2.count
            .rebuildPassesShaders = 0 := by
  intro f o1 o2 h
  rcases f with ⟨sh, lib⟩
  refine ⟨?_, ?_, ?_⟩
  · cases lib <;> simp [orchestratorTick, h]
  · cases lib <;> simp [orchestratorTick, h]
  · intro o3 o4
    rw [orchestratorTick_flags o1 o2]
    cases lib <;> simp [orchestratorTick]

/-- Witness for C4 with the spec's pending list `["x.wgsl", "y.wgsl"]` and
a failing first rebuild. -/
theorem c4_shader_drain_exactly_once_witness :
    (orchestratorTick (.error (.ShaderNotFound "x.wgsl")) (.ok ())
        ⟨["x.wgsl", "y.wgsl"], .Stable⟩).2.count .rebuildPassesShaders = 1
    ∧ (orchestratorTick (.error (.ShaderNotFound "x.wgsl")) (.ok ())
        ⟨["x.wgsl", "y.wgsl"], .Stable⟩).1.shaders = []
    ∧ ∀ (o3 o4 : Except ProgramError Unit),
        (orchestratorTick o3 o4
          (orchestratorTick (.error (.ShaderNotFound "x.wgsl")) (.ok ())
            ⟨["x.wgsl", "y.wgsl"], .Stable⟩).1).2.count .rebuildPassesShaders = 0 :=
  c4_shader_drain_exactly_once ⟨["x.wgsl", "y.wgsl"], .Stable⟩
    (.error (.ShaderNotFound "x.wgsl")) (.ok ()) (by decide)

/-- C8: on every orchestrator tick, the program's `update_program` and
`render_frame` calls happen exactly when, after the shader drain and the
`Reloaded` handling, the phase is `Stable`; in particular in a tick that
starts with phase `Reloading` the frame is skipped: neither update nor
render appears in the trace. -/
theorem c8_render_only_when_stable :
    ∀ (f : ReloadFlags) (o1 o2 : Except ProgramError Unit),
      ((Ev.updateProgram ∈ (orchestratorTick o1 o2 f).2
          ∨ Ev.renderFrame ∈ (orchestratorTick o1 o2 f).2)
        ↔ (orchestratorTick o1 o2 f).1.lib = .Stable)
      ∧ (f.lib = .Reloading →
          Ev.updateProgram ∉ (orchestratorTick o1 o2 f).2
          ∧ Ev.renderFrame ∉ (orchestratorTick o1 o2 f).2) := by
  intro f o1 o2
  rcases f with ⟨sh, lib⟩
  by_cases h : sh = [] <;> cases lib <;>
    simp [orchestratorTick, h]

/-- Witness for C8 in a tick starting in phase `Reloading` with a pending
shader: the drain happens but no update or render is traced. -/
theorem c8_render_only_when_stable_witness :
    ((Ev.updateProgram ∈ (orchestratorTick (.ok ()) (.ok ())
          ⟨["x.wgsl"], .Reloading⟩).2
        ∨ Ev.renderFrame ∈ (orchestratorTick (.ok ()) (.ok ())
          ⟨["x.wgsl"], .Reloading⟩).2)
      ↔ (orchestratorTick (.ok ()) (.ok ()) ⟨["x.wgsl"], .Reloading⟩).1.lib = .Stable)
    ∧ (Ev.updateProgram ∉ (orchestratorTick (.ok ()) (.ok ())
          ⟨["x.wgsl"], .Reloading⟩).2
        ∧ Ev.renderFrame ∉ (orchestratorTick (.ok ()) (.ok ())
          ⟨["x.wgsl"], .Reloading⟩).2) :=
  ⟨(c8_render_only_when_stable ⟨["x.wgsl"], .Reloading⟩ (.ok ()) (.ok ())).1,
   (c8_render_only_when_stable ⟨["x.wgsl"], .Reloading⟩ (.ok ()) (.ok ())).2 rfl⟩

/-- C9 counterexample: the claim says the orchestrator releases the lock
before invoking `rebuildPasses` or any rendering operation.  In the code
the `MutexGuard` from `data.lock()` lives to the end of the redraw scope:
in the concrete tick below the only `lockRelease` event is the last event
of the trace, after the shader-drain rebuild, the update and the render. -/
theorem c9_lock_scope_counterexample :
    (orchestratorTick (.ok ()) (.ok ()) ⟨["x.wgsl"], .Stable⟩).2 =
      [.lockAcquire, .rebuildPassesShaders, .updateProgram, .renderFrame, .lockRelease]
    ∧ (orchestratorTick (.ok ()) (.ok ())
        ⟨["x.wgsl"], .Stable⟩).2.count .lockRelease = 1 := by
  constructor
  · rfl
  · decide

/-- C9 amended: the orchestrator acquires the record's lock exactly once
per tick, as the first event, and releases it exactly once, as the last
event of the tick; every `rebuildPasses`, update and render call of the
tick therefore happens while the lock is held — the lock is not released
before the GPU-facing calls. -/
theorem c9_lock_scope_amended :
    ∀ (f : ReloadFlags) (o1 o2 : Except ProgramError Unit),
      ∃ mid : List Ev,
        (orchestratorTick o1 o2 f).2 = .lockAcquire :: mid ++ [.lockRelease]
        ∧ Ev.lockAcquire ∉ mid ∧ Ev.lockRelease ∉ mid := by
  intro f o1 o2
  rcases f with ⟨sh, lib⟩
  by_cases h : sh = []
  · cases lib with
    | Stable => exact ⟨[.updateProgram, .renderFrame], by simp [orchestratorTick, h], by decide, by decide⟩
    | Reloading => exact ⟨[], by simp [orchestratorTick, h], by decide, by decide⟩
    | Reloaded => exact ⟨[.rebuildPassesLib, .updateProgram, .renderFrame], by simp [orchestratorTick, h], by decide, by decide⟩
  · cases lib with
    | Stable => exact ⟨[.rebuildPassesShaders, .updateProgram, .renderFrame], by simp [orchestratorTick, h], by decide, by decide⟩
    | Reloading => exact ⟨[.rebuildPassesShaders], by simp [orchestratorTick, h], by decide, by decide⟩
    | Reloaded => exact ⟨[.rebuildPassesShaders, .rebuildPassesLib, .updateProgram, .renderFrame], by simp [orchestratorTick, h], by decide, by decide⟩
